import Mathlib

/-!
Verification of the S3-to-S3 bypass transfer engine
(`exporters/export_managers/s3_to_s3_bypass.py`).

The Python source is shallowly embedded: each relevant Python function or
method becomes an executable Lean definition over explicit state, and the
spec's claims are settled as theorems about those definitions.
-/

namespace S3Bypass

/-! ## Configuration and the eligibility checker (`S3Bypass.meets_conditions`)

`meets_conditions` inspects the pipeline configuration.  Module names are
strings checked with `endswith`; the three writer buffering options are
read with `dict.get` and tested for Python truthiness (absent → `None` →
falsy; `0` is also falsy). -/

structure Config where
  readerName : String
  writerName : String
  filterBeforeName : String
  filterAfterName : String
  transformName : String
  grouperName : String
  itemsLimit : Option Nat
  itemsPerBufferWrite : Option Nat
  sizePerBufferWrite : Option Nat
  deriving Repr, DecidableEq

/-- Python's `str.endswith`: suffix test on the characters. -/
def pyEndsWith (s suff : String) : Bool :=
  suff.data.isSuffixOf s.data

/-- Python truthiness of `options.get(name)` for a numeric option:
`None` (absent) and `0` are falsy, everything else truthy. -/
def optTruthy (o : Option Nat) : Bool :=
  match o with
  | none => false
  | some n => n != 0

/-- Outcome of a failed eligibility check: `RequisitesNotMet` raised either
bare (check 1) or after logging a reason (checks 2–8, via
`_raise_conditions_not_met`). -/
inductive NotMet where
  | bare : NotMet
  | logged : String → NotMet
  deriving Repr, DecidableEq

/-- `S3Bypass.meets_conditions`, line by line from the source: eight checks
in source order, each raising on violation; a raise skips all later checks,
which nested if-else renders faithfully. -/
def meets_conditions (c : Config) : Except NotMet Unit :=
  if !(pyEndsWith c.readerName "S3Reader") || !(pyEndsWith c.writerName "S3Writer") then
    Except.error NotMet.bare
  else if !(pyEndsWith c.filterBeforeName "NoFilter") then
    Except.error (NotMet.logged "custom filter configured")
  else if !(pyEndsWith c.filterAfterName "NoFilter") then
    Except.error (NotMet.logged "custom filter configured")
  else if !(pyEndsWith c.transformName "NoTransform") then
    Except.error (NotMet.logged "custom transform configured")
  else if !(pyEndsWith c.grouperName "NoGrouper") then
    Except.error (NotMet.logged "custom grouper configured")
  else if optTruthy c.itemsLimit then
    Except.error (NotMet.logged "items limit configuration (items_limit)")
  else if optTruthy c.itemsPerBufferWrite then
    Except.error (NotMet.logged "buffer limit configuration (items_per_buffer_write)")
  else if optTruthy c.sizePerBufferWrite then
    Except.error (NotMet.logged "buffer limit configuration (size_per_buffer_write)")
  else
    Except.ok ()

/-! The eight conditions of the checker, as predicates (each is the
negation of the corresponding raise guard in `meets_conditions`). -/

def condReaderWriter (c : Config) : Bool :=
  pyEndsWith c.readerName "S3Reader" && pyEndsWith c.writerName "S3Writer"

def condNoFilterBefore (c : Config) : Bool :=
  pyEndsWith c.filterBeforeName "NoFilter"

def condNoFilterAfter (c : Config) : Bool :=
  pyEndsWith c.filterAfterName "NoFilter"

def condNoTransform (c : Config) : Bool :=
  pyEndsWith c.transformName "NoTransform"

def condNoGrouper (c : Config) : Bool :=
  pyEndsWith c.grouperName "NoGrouper"

def condNoItemsLimit (c : Config) : Bool :=
  !optTruthy c.itemsLimit

def condNoItemsPerBufferWrite (c : Config) : Bool :=
  !optTruthy c.itemsPerBufferWrite

def condNoSizePerBufferWrite (c : Config) : Bool :=
  !optTruthy c.sizePerBufferWrite

/-! ## The transfer ledger (`S3BypassState`)

The ledger holds `pending`, `done`, `skipped` (lists of key names) and
`stats = {'total_count': n}` (modelled as the contained `Nat`).  The
persistence backend (`get_last_position` / `commit_position` / `delete`)
is an external collaborator; it is modelled as an `Option Checkpoint`
cell that the ledger reads and writes. -/

structure Checkpoint where
  pending : List String
  done : List String
  skipped : List String
  /-- `stats` may be absent from an old checkpoint; `__init__` reads it
  with `.get('stats', {'total_count': 0})`. -/
  stats : Option Nat
  deriving Repr, DecidableEq

structure Ledger where
  pending : List String
  done : List String
  skipped : List String
  totalCount : Nat
  deriving Repr, DecidableEq

/-- `S3BypassState._get_state`: the checkpoint written on every commit. -/
def _get_state (l : Ledger) : Checkpoint :=
  { pending := l.pending, done := l.done, skipped := l.skipped,
    stats := some l.totalCount }

/-- `S3BypassState.__init__`: if no persisted position exists, build the
ledger from the enumeration result (`S3BucketKeysFetcher(...).pending_keys()`,
passed in as `enumKeys`) and commit the initial checkpoint; otherwise load
from the persisted position.  Returns the ledger together with the
persistence cell after construction. -/
def S3BypassState.init (persisted : Option Checkpoint) (enumKeys : List String) :
    Ledger × Option Checkpoint :=
  match persisted with
  | none =>
      let l : Ledger := { pending := enumKeys, done := [], skipped := [], totalCount := 0 }
      (l, some (_get_state l))
  | some ckpt =>
      let l : Ledger := { pending := ckpt.pending, done := [],
                          skipped := ckpt.done, totalCount := ckpt.stats.getD 0 }
      (l, some ckpt)

/-- `S3BypassState.commit_copied_key`: `self.pending.remove(key)` (raises
`ValueError` when the key is absent — modelled as `none`), append to
`done`, persist the full checkpoint. -/
def commit_copied_key (l : Ledger) (key : String) : Option (Ledger × Checkpoint) :=
  if key ∈ l.pending then
    let l' : Ledger := { l with pending := l.pending.erase key, done := l.done ++ [key] }
    some (l', _get_state l')
  else
    none

/-- `S3BypassState.increment_items`. -/
def increment_items (l : Ledger) (itemsNumber : Nat) : Ledger :=
  { l with totalCount := l.totalCount + itemsNumber }

/-- `S3BypassState.pending_keys` (the value it returns; the aliasing
behaviour is modelled separately with an explicit heap below). -/
def pending_keys (l : Ledger) : List String :=
  l.pending

/-- `S3BypassState.delete`: `self.state.delete()` purges the persisted
checkpoint. -/
def S3BypassState.delete (_persisted : Option Checkpoint) : Option Checkpoint :=
  none

/-- `S3Bypass.close`: unconditionally `self.bypass_state.delete()`. -/
def close (l : Ledger) (persisted : Option Checkpoint) : Ledger × Option Checkpoint :=
  (l, S3BypassState.delete persisted)

/-! Generic ledger operation sequences, for the creation-onward invariant. -/

inductive LedgerOp where
  | commit : String → LedgerOp
  | increment : Nat → LedgerOp
  deriving Repr, DecidableEq

/-- One ledger operation; `none` models the Python exception from
`pending.remove` on a missing key. -/
def stepOp (l : Ledger) : LedgerOp → Option Ledger
  | LedgerOp.commit k => (commit_copied_key l k).map Prod.fst
  | LedgerOp.increment n => some (increment_items l n)

/-- Run a sequence of ledger operations from a state. -/
def runOps (l : Ledger) : List LedgerOp → Option Ledger
  | [] => some l
  | op :: ops => (stepOp l op).bind (fun l' => runOps l' ops)

/-! ## Copy engine errors, integrity check and retry wrapper -/

inductive CopyError where
  /-- `boto.exception.S3ResponseError`: permission/transport failures from
  the storage service. -/
  | s3ResponseError : CopyError
  /-- `InvalidKeyIntegrityCheck`: source/destination md5 mismatch. -/
  | invalidKeyIntegrityCheck : CopyError
  deriving Repr, DecidableEq

/-- `S3Bypass._check_copy_integrity`: raise when the etags differ. -/
def _check_copy_integrity (sourceEtag destEtag : String) : Except CopyError Unit :=
  if sourceEtag ≠ destEtag then Except.error CopyError.invalidKeyIntegrityCheck
  else Except.ok ()

/-- `S3Bypass._ensure_copy_key`, given whether the direct server-side copy
raises `S3ResponseError` (driving the stream-copy fallback), whether the
destination ACL/verification step raises `S3ResponseError` (only logged),
and the etags of the source key and of the destination key after the copy.
Returns whether the fallback path was used. -/
def _ensure_copy_key (directRaisesS3 aclRaisesS3 : Bool)
    (sourceEtag destEtag : String) : Except CopyError Bool :=
  let usedFallback := directRaisesS3
  if aclRaisesS3 then Except.ok usedFallback
  else (_check_copy_integrity sourceEtag destEtag).map (fun _ => usedFallback)

/-- Which errors the retry policy retries. -/
def retryable : CopyError → Bool
  | CopyError.s3ResponseError => true
  | CopyError.invalidKeyIntegrityCheck => false

/-- Modelled from the spec: `retry_long` (from `exporters.default_retries`,
a module not among the given sources) wraps the per-key copy in a bounded
retry with backoff for transient transport/service errors;
`IntegrityMismatch` and `ConfigurationError`-class failures are never
retried and propagate immediately.  `f i` is the i-th attempt; the result
is paired with the number of attempts performed. -/
def retry_long {α : Type} (f : Nat → Except CopyError α) :
    Nat → Nat → Except CopyError α × Nat
  | 0, i => (f i, i + 1)
  | fuel + 1, i =>
      match f i with
      | Except.ok a => (Except.ok a, i + 1)
      | Except.error e =>
          if retryable e then retry_long f fuel (i + 1)
          else (Except.error e, i + 1)

/-! ## Per-key statistics (`S3Bypass._copy_key`, `increment_items`)

`_copy_key` reads the source key's `total` metadata (`None` when absent);
a truthy value is converted with `int` and added to the running counters,
otherwise `valid_total_count` is set to `False`.  Item counts are
non-negative, so `int` is modelled by `pyInt` below (`none` models the
`ValueError` raised on a non-numeric value). -/

/-- Python truthiness of `key.get_metadata('total')`: `None` and the empty
string are falsy. -/
def pyStrTruthy (o : Option String) : Bool :=
  match o with
  | none => false
  | some s => s.data ≠ []

/-- Python `int(s)` on a (non-negative) decimal string; `none` models the
`ValueError` raised on a non-numeric value. -/
def pyInt (s : String) : Option Nat :=
  if s.data ≠ [] ∧ s.data.all Char.isDigit then
    some (s.data.foldl (fun n c => n * 10 + (c.toNat - 48)) 0)
  else
    none

/-- The statistics effect of `_copy_key` for one key, on the pair
(running `total_count`, `valid_total_count`). -/
def copyKeyStats (totalMeta : Option String) (totalCount : Nat) (valid : Bool) :
    Option (Nat × Bool) :=
  if pyStrTruthy totalMeta then
    match pyInt (totalMeta.getD "") with
    | some n => some (totalCount + n, valid)
    | none => none
  else
    some (totalCount, false)

/-- The statistics of a whole run: `_copy_key`'s effect folded over the
`total` metadata of the successive keys. -/
def runStats : List (Option String) → Nat → Bool → Option (Nat × Bool)
  | [], t, v => some (t, v)
  | m :: ms, t, v => (copyKeyStats m t v).bind (fun p => runStats ms p.1 p.2)

/-! ## The copy loop (`S3Bypass.bypass`)

The loop iterates a snapshot of the pending keys; for each key, the copy
is attempted (any propagating exception aborts the loop) and on success
the key is committed to the ledger before the next key is processed.
Aborts carry the error, the in-flight key and the ledger as last
committed. -/

def bypassLoop (copyKey : String → Except CopyError Unit) :
    List String → Ledger → Except (CopyError × String × Ledger) Ledger
  | [], l => Except.ok l
  | k :: ks, l =>
      match copyKey k with
      | Except.error e => Except.error (e, k, l)
      | Except.ok _ =>
          match commit_copied_key l k with
          | some (l', _) => bypassLoop copyKey ks l'
          | none =>
              -- the ValueError from `pending.remove` also aborts with the
              -- ledger unchanged (unreachable while the snapshot equals the
              -- pending list); represented in the same error channel
              Except.error (CopyError.s3ResponseError, k, l)

/-- The `for key in pending_keys:` part of `S3Bypass.bypass`: the snapshot
iterated is `deepcopy(self.bypass_state.pending_keys())`, i.e. the value of
the pending list at loop entry. -/
def bypassRun (copyKey : String → Except CopyError Unit) (l : Ledger) :
    Except (CopyError × String × Ledger) Ledger :=
  bypassLoop copyKey (pending_keys l) l

/-! ## Scoped permission grants (`key_permissions` and helpers) -/

structure Grant where
  id : String
  permission : String
  deriving Repr, DecidableEq

structure Acl where
  grants : List Grant
  deriving Repr, DecidableEq

/-- `_key_has_permissions`: whether any grant on the key belongs to the
user. -/
def _key_has_permissions (userId : String) (acl : Acl) : Bool :=
  acl.grants.any (fun g => g.id == userId)

/-- `_add_permissions`: `key.add_user_grant('READ', user_id)` appends a
grant. -/
def _add_permissions (userId : String) (acl : Acl) : Acl :=
  ⟨acl.grants ++ [⟨userId, "READ"⟩]⟩

/-- `_clean_permissions`: drop every grant whose id is the user's. -/
def _clean_permissions (userId : String) (acl : Acl) : Acl :=
  ⟨acl.grants.filter (fun g => !(g.id == userId))⟩

/-- The ACL the copy is issued under, inside the `key_permissions` scope. -/
def key_permissions_during (userId : String) (acl : Acl) : Acl :=
  if _key_has_permissions userId acl then acl else _add_permissions userId acl

/-- The `key_permissions` context manager: add the grant when absent, run
the body, and in `finally` remove it again — on the normal exit
(`Except.ok`) and on the exception exit (`Except.error`) alike.  The value
carried on either exit is the source key's ACL after the scope. -/
def key_permissions (userId : String) (acl : Acl) (bodyRaises : Bool) :
    Except Acl Acl :=
  let handling := !(_key_has_permissions userId acl)
  let aclDuring := if handling then _add_permissions userId acl else acl
  if bodyRaises then
    Except.error (if handling then _clean_permissions userId aclDuring else aclDuring)
  else
    Except.ok (if handling then _clean_permissions userId aclDuring else aclDuring)

/-! ## Aliasing of the pending list

Python returns and mutates heap objects by reference, so the aliasing
behaviour of `pending_keys` is modelled with an explicit heap of list
cells: an address is a `Nat`, the ledger holds the address of its live
`pending` list, `pending_keys` returns that address unchanged (it returns
`self.pending` itself), and `deepcopy` allocates a fresh cell. -/

structure Heap where
  cells : List (List String)
  deriving Repr, DecidableEq

def Heap.read (h : Heap) (r : Nat) : List String :=
  (h.cells[r]?).getD []

def Heap.write (h : Heap) (r : Nat) (v : List String) : Heap :=
  ⟨h.cells.set r v⟩

def Heap.alloc (h : Heap) (v : List String) : Heap × Nat :=
  (⟨h.cells ++ [v]⟩, h.cells.length)

/-- The ledger as it lives on the heap: the live pending list is a heap
cell, the other fields are kept by value. -/
structure LedgerRef where
  pendingRef : Nat
  done : List String
  deriving Repr, DecidableEq

/-- `S3BypassState.pending_keys` at the reference level: `return
self.pending` hands out the live list object itself. -/
def pending_keysRef (st : LedgerRef) : Nat :=
  st.pendingRef

/-- `copy.deepcopy` of a list object: allocate a fresh cell holding the
same value. -/
def deepcopyList (h : Heap) (r : Nat) : Heap × Nat :=
  h.alloc (h.read r)

/-- `commit_copied_key` at the reference level: mutate the live pending
list in place (`self.pending.remove(key)`) and append to `done`. -/
def commit_copied_keyRef (h : Heap) (st : LedgerRef) (key : String) :
    Heap × LedgerRef :=
  (h.write st.pendingRef ((h.read st.pendingRef).erase key),
   { st with done := st.done ++ [key] })

/-! ## Destination key naming (`S3Bypass.bypass`)

`dest_key_name = '{}/{}'.format(dest_filebase, key.split('/')[-1])`. -/

/-- Python's `key.split(sep)` on character lists. -/
def splitChars (sep : Char) : List Char → List (List Char)
  | [] => [[]]
  | c :: rest =>
      match splitChars sep rest with
      | [] => [[]]
      | g :: gs => if c = sep then [] :: g :: gs else (c :: g) :: gs

/-- `key.split('/')[-1]`: the last `/`-separated component of a key name. -/
def lastComponent (key : String) : String :=
  String.mk ((splitChars (Char.ofNat 47) key.data).getLastD [])

def dest_key_name (destFilebase key : String) : String :=
  destFilebase ++ "/" ++ lastComponent key

/-- A destination bucket as a map from key names to contents. -/
def Bucket : Type := String → Option String

/-- A write to the destination bucket: object-storage puts overwrite any
existing object under the same name. -/
def putKey (b : Bucket) (name content : String) : Bucket :=
  fun n => if n = name then some content else b n

/-- One key copy as observed by the destination bucket: the source content
is written under the computed destination name. -/
def copyToDest (b : Bucket) (destFilebase key content : String) : Bucket :=
  putKey b (dest_key_name destFilebase key) content

/-! # Theorems -/

/-- C2: `meets_conditions` evaluates its eight conditions in the fixed
source order, short-circuiting on the first violation: the run is eligible
iff all eight hold; a violation of check 1 raises bare `RequisitesNotMet`
(no custom reason); for each later check, when all earlier checks pass the
reported reason is that check's logged reason — in particular a custom
transform is reported even when `items_limit` is also set. -/
theorem meets_conditions_first_violation (c : Config) :
    (meets_conditions c = Except.ok () ↔
      (condReaderWriter c && condNoFilterBefore c && condNoFilterAfter c &&
       condNoTransform c && condNoGrouper c && condNoItemsLimit c &&
       condNoItemsPerBufferWrite c && condNoSizePerBufferWrite c) = true)
    ∧ (condReaderWriter c = false →
        meets_conditions c = Except.error NotMet.bare)
    ∧ (condReaderWriter c = true → condNoFilterBefore c = false →
        meets_conditions c = Except.error (NotMet.logged "custom filter configured"))
    ∧ (condReaderWriter c = true → condNoFilterBefore c = true →
        condNoFilterAfter c = false →
        meets_conditions c = Except.error (NotMet.logged "custom filter configured"))
    ∧ (condReaderWriter c = true → condNoFilterBefore c = true →
        condNoFilterAfter c = true → condNoTransform c = false →
        meets_conditions c = Except.error (NotMet.logged "custom transform configured"))
    ∧ (condReaderWriter c = true → condNoFilterBefore c = true →
        condNoFilterAfter c = true → condNoTransform c = true →
        condNoGrouper c = false →
        meets_conditions c = Except.error (NotMet.logged "custom grouper configured"))
    ∧ (condReaderWriter c = true → condNoFilterBefore c = true →
        condNoFilterAfter c = true → condNoTransform c = true →
        condNoGrouper c = true → condNoItemsLimit c = false →
        meets_conditions c = Except.error (NotMet.logged "items limit configuration (items_limit)"))
    ∧ (condReaderWriter c = true → condNoFilterBefore c = true →
        condNoFilterAfter c = true → condNoTransform c = true →
        condNoGrouper c = true → condNoItemsLimit c = true →
        condNoItemsPerBufferWrite c = false →
        meets_conditions c = Except.error (NotMet.logged "buffer limit configuration (items_per_buffer_write)"))
    ∧ (condReaderWriter c = true → condNoFilterBefore c = true →
        condNoFilterAfter c = true → condNoTransform c = true →
        condNoGrouper c = true → condNoItemsLimit c = true →
        condNoItemsPerBufferWrite c = true → condNoSizePerBufferWrite c = false →
        meets_conditions c = Except.error (NotMet.logged "buffer limit configuration (size_per_buffer_write)")) := by
  refine ⟨?_, ?_, ?_, ?_, ?_, ?_, ?_, ?_, ?_⟩
  · simp only [meets_conditions, condReaderWriter, condNoFilterBefore, condNoFilterAfter,
      condNoTransform, condNoGrouper, condNoItemsLimit, condNoItemsPerBufferWrite,
      condNoSizePerBufferWrite]
    split_ifs <;> simp_all
    all_goals (intros; simp_all)
  all_goals
    simp only [condReaderWriter, condNoFilterBefore, condNoFilterAfter,
      condNoTransform, condNoGrouper, condNoItemsLimit, condNoItemsPerBufferWrite,
      condNoSizePerBufferWrite]
    intros
    simp_all [meets_conditions]

/-- C2 witness: a configuration with both a custom transform and a
non-default `items_limit` reports the transform violation. -/
theorem meets_conditions_first_violation_witness :
    meets_conditions
      { readerName := "exporters.readers.s3_reader.S3Reader",
        writerName := "exporters.writers.s3_writer.S3Writer",
        filterBeforeName := "exporters.filters.no_filter.NoFilter",
        filterAfterName := "exporters.filters.no_filter.NoFilter",
        transformName := "exporters.transform.jq_transform.JQTransform",
        grouperName := "exporters.groupers.no_grouper.NoGrouper",
        itemsLimit := some 10,
        itemsPerBufferWrite := none,
        sizePerBufferWrite := none } =
      Except.error (NotMet.logged "custom transform configured") :=
  (meets_conditions_first_violation _).2.2.2.2.1 (by decide) (by decide) (by decide) (by decide)

/-- C1 counterexample: starting from checkpoint `{pending:[a,b,c], done:[]}`,
committing `a` persists `{pending:[b,c], done:[a], skipped:[]}`, but a
reload with a fresh loader does NOT adopt `done` verbatim: the restored
ledger has `done = [] ≠ [a]` (the checkpoint's `done` is loaded into
`skipped` instead). -/
theorem resume_verbatim_counterexample :
    commit_copied_key (S3BypassState.init none ["a", "b", "c"]).1 "a" =
      some (⟨["b", "c"], ["a"], [], 0⟩, ⟨["b", "c"], ["a"], [], some 0⟩)
    ∧ (S3BypassState.init (some ⟨["b", "c"], ["a"], [], some 0⟩) ["a", "b", "c"]).1 =
        ⟨["b", "c"], [], ["a"], 0⟩
    ∧ (S3BypassState.init (some ⟨["b", "c"], ["a"], [], some 0⟩) ["a", "b", "c"]).1.done ≠
        ["a"] := by
  refine ⟨by decide, by decide, by decide⟩

/-- C1 amended: loading a persisted checkpoint adopts `pending` and `stats`
verbatim, but resets `done` to empty and loads the checkpoint's `done` into
`skipped` (the checkpoint's `skipped` field is discarded).  In the
spec's scenario — checkpoint `{pending:[a,b,c], done:[]}`, commit of `a`,
reload with a fresh loader — the restored ledger is
`{pending:[b,c], done:[], skipped:[a]}`; `a` is not in `pending`, and a
full run from the restored ledger copies exactly `b` and `c`, never
recopying `a`. -/
theorem resume_amended (ckpt : Checkpoint) (enumKeys : List String) :
    ((S3BypassState.init (some ckpt) enumKeys).1.pending = ckpt.pending
      ∧ (S3BypassState.init (some ckpt) enumKeys).1.totalCount = ckpt.stats.getD 0
      ∧ (S3BypassState.init (some ckpt) enumKeys).1.done = []
      ∧ (S3BypassState.init (some ckpt) enumKeys).1.skipped = ckpt.done)
    ∧ ((commit_copied_key (S3BypassState.init none ["a", "b", "c"]).1 "a").map
        (fun p =>
          ((S3BypassState.init (some p.2) ["a", "b", "c"]).1.pending,
           (S3BypassState.init (some p.2) ["a", "b", "c"]).1.done,
           (S3BypassState.init (some p.2) ["a", "b", "c"]).1.skipped,
           decide ("a" ∈ (S3BypassState.init (some p.2) ["a", "b", "c"]).1.pending),
           bypassRun (fun _ => Except.ok ())
             (S3BypassState.init (some p.2) ["a", "b", "c"]).1)) =
      some (["b", "c"], [], ["a"], false, Except.ok ⟨[], ["b", "c"], ["a"], 0⟩)) :=
  ⟨⟨rfl, rfl, rfl, rfl⟩, rfl⟩

/-! Helper lemmas about ledger operation sequences (shared by several
claims below). -/

/-- The ledger invariant: no duplicates on either side, and no key on both. -/
def LedgerInv (l : Ledger) : Prop :=
  l.pending.Nodup ∧ l.done.Nodup ∧ ∀ k ∈ l.done, k ∉ l.pending

theorem commit_copied_key_some {l : Ledger} {k : String} {l' : Ledger} {c : Checkpoint}
    (h : commit_copied_key l k = some (l', c)) :
    k ∈ l.pending ∧ l' = { l with pending := l.pending.erase k, done := l.done ++ [k] } := by
  by_cases hk : k ∈ l.pending
  · rw [commit_copied_key, if_pos hk] at h
    simp only [Option.some.injEq, Prod.mk.injEq] at h
    exact ⟨hk, h.1.symm⟩
  · rw [commit_copied_key, if_neg hk] at h
    cases h

theorem stepOp_inv {l l' : Ledger} {op : LedgerOp}
    (hInv : LedgerInv l) (h : stepOp l op = some l') : LedgerInv l' := by
  obtain ⟨hp, hd, hdisj⟩ := hInv
  cases op with
  | increment n =>
      simp only [stepOp, increment_items, Option.some.injEq] at h
      subst h
      exact ⟨hp, hd, hdisj⟩
  | commit k =>
      simp only [stepOp, Option.map_eq_some'] at h
      obtain ⟨⟨l₁, c₁⟩, hc, rfl⟩ := h
      obtain ⟨hk, rfl⟩ := commit_copied_key_some hc
      refine ⟨hp.erase k, ?_, ?_⟩
      · have hkd : k ∉ l.done := fun hmem => hdisj k hmem hk
        simp [List.nodup_append, hd, hkd]
      · intro x hx
        simp only [List.mem_append, List.mem_singleton] at hx
        rcases hx with hx | rfl
        · exact fun hmem => hdisj x hx (List.mem_of_mem_erase hmem)
        · rw [hp.erase_eq_filter]
          simp

theorem runOps_inv {l l' : Ledger} {ops : List LedgerOp}
    (hInv : LedgerInv l) (h : runOps l ops = some l') : LedgerInv l' := by
  induction ops generalizing l with
  | nil => simp only [runOps, Option.some.injEq] at h; exact h ▸ hInv
  | cons op ops ih =>
      simp only [runOps, Option.bind_eq_some] at h
      obtain ⟨l₁, h₁, h₂⟩ := h
      exact ih (stepOp_inv hInv h₁) h₂

theorem runOps_mono {l l' : Ledger} {ops : List LedgerOp}
    (h : runOps l ops = some l') :
    (∀ k ∈ l.done, k ∈ l'.done) ∧ (∀ k ∈ l'.pending, k ∈ l.pending) := by
  induction ops generalizing l with
  | nil => simp only [runOps, Option.some.injEq] at h; subst h; exact ⟨fun _ h => h, fun _ h => h⟩
  | cons op ops ih =>
      simp only [runOps, Option.bind_eq_some] at h
      obtain ⟨l₁, h₁, h₂⟩ := h
      obtain ⟨ihd, ihp⟩ := ih h₂
      cases op with
      | increment n =>
          simp only [stepOp, increment_items, Option.some.injEq] at h₁
          subst h₁
          exact ⟨ihd, ihp⟩
      | commit k =>
          simp only [stepOp, Option.map_eq_some'] at h₁
          obtain ⟨⟨l₂, c₂⟩, hc, rfl⟩ := h₁
          obtain ⟨hk, rfl⟩ := commit_copied_key_some hc
          constructor
          · intro x hx
            exact ihd x (by simp [hx])
          · intro x hx
            exact List.mem_of_mem_erase (ihp x hx)

/-- C3: from creation of a fresh ledger over a (duplicate-free) enumeration
result, `pending` starts as the full enumeration with `done` empty; every
reachable state keeps `pending` and `done` duplicate-free and disjoint;
`commit_copied_key` fails (raises) exactly when the key is not pending; and
along any run `done` only grows while `pending` only shrinks, so a key
moved to `done` is never re-added to `pending`. -/
theorem ledger_disjoint_invariant (keys : List String) (hnd : keys.Nodup) :
    ((S3BypassState.init none keys).1.pending = keys
      ∧ (S3BypassState.init none keys).1.done = [])
    ∧ (∀ (ops : List LedgerOp) (l' : Ledger),
        runOps (S3BypassState.init none keys).1 ops = some l' →
        l'.pending.Nodup ∧ l'.done.Nodup ∧ ∀ k ∈ l'.done, k ∉ l'.pending)
    ∧ (∀ (l : Ledger) (k : String), commit_copied_key l k = none ↔ k ∉ l.pending)
    ∧ (∀ (l l' : Ledger) (ops : List LedgerOp), runOps l ops = some l' →
        (∀ k ∈ l.done, k ∈ l'.done) ∧ (∀ k ∈ l'.pending, k ∈ l.pending)) := by
  refine ⟨⟨rfl, rfl⟩, ?_, ?_, ?_⟩
  · intro ops l' h
    exact runOps_inv ⟨hnd, List.nodup_nil, fun k hk => absurd hk (List.not_mem_nil k)⟩ h
  · intro l k
    constructor
    · intro h hk
      rw [commit_copied_key, if_pos hk] at h
      cases h
    · intro hk
      rw [commit_copied_key, if_neg hk]
  · intro l l' ops h
    exact runOps_mono h

/-- C3 witness: over the enumeration `[a, b]`, after committing `a` the
reached state `{pending:[b], done:[a]}` satisfies the invariant. -/
theorem ledger_disjoint_invariant_witness :
    (Ledger.pending ⟨["b"], ["a"], [], 0⟩).Nodup
    ∧ (Ledger.done ⟨["b"], ["a"], [], 0⟩).Nodup
    ∧ ∀ k ∈ Ledger.done ⟨["b"], ["a"], [], 0⟩, k ∉ Ledger.pending ⟨["b"], ["a"], [], 0⟩ :=
  (ledger_disjoint_invariant ["a", "b"] (by decide)).2.1
    [LedgerOp.commit "a"] ⟨["b"], ["a"], [], 0⟩ rfl

/-- Shared loop lemma: if the ledger's pending list splits into a prefix
whose keys all copy successfully followed by a failing key `kf`, the loop
commits exactly the prefix, in order, and aborts at `kf` with the ledger in
its last committed state. -/
theorem bypassLoop_prefix_fail (copyKey : String → Except CopyError Unit)
    (kf : String) (e : CopyError) (hfail : copyKey kf = Except.error e) :
    ∀ (p₁ p₂ : List String) (l : Ledger), l.pending = p₁ ++ kf :: p₂ →
      (∀ k ∈ p₁, copyKey k = Except.ok ()) →
      bypassLoop copyKey (p₁ ++ kf :: p₂) l =
        Except.error (e, kf, { l with pending := kf :: p₂, done := l.done ++ p₁ }) := by
  intro p₁
  induction p₁ with
  | nil =>
      intro p₂ l h hok
      obtain ⟨lp, ld, ls, lt⟩ := l
      simp only [List.nil_append] at h
      subst h
      simp [bypassLoop, hfail]
  | cons k p₁ ih =>
      intro p₂ l h hok
      obtain ⟨lp, ld, ls, lt⟩ := l
      simp only [List.cons_append] at h
      subst h
      have hcommit :
          commit_copied_key ⟨k :: (p₁ ++ kf :: p₂), ld, ls, lt⟩ k =
            some (⟨p₁ ++ kf :: p₂, ld ++ [k], ls, lt⟩,
              _get_state ⟨p₁ ++ kf :: p₂, ld ++ [k], ls, lt⟩) := by
        rw [commit_copied_key, if_pos (List.mem_cons_self _ _)]
        simp [List.erase_cons_head]
      have happ := ih p₂ ⟨p₁ ++ kf :: p₂, ld ++ [k], ls, lt⟩ rfl
        (fun x hx => hok x (List.mem_cons_of_mem k hx))
      simp only [List.cons_append, bypassLoop, hok k (List.mem_cons_self _ _), hcommit]
      simp only [List.append_eq]
      rw [happ]
      simp [List.append_assoc]

/-- C4: the copy loop processes the pending snapshot strictly in order,
committing each key after its copy succeeds and before the next key is
touched; when the copy of a key fails, the loop aborts carrying exactly the
ledger state with the preceding keys committed — the in-flight key is still
pending and not done, so a later run resumes exactly at that key (it heads
the remaining pending list). -/
theorem bypass_crash_safety (copyKey : String → Except CopyError Unit)
    (l : Ledger) (p₁ p₂ : List String) (kf : String) (e : CopyError)
    (hsplit : l.pending = p₁ ++ kf :: p₂)
    (hnd : l.pending.Nodup)
    (hdisj : ∀ x ∈ l.done, x ∉ l.pending)
    (hok : ∀ k ∈ p₁, copyKey k = Except.ok ())
    (hfail : copyKey kf = Except.error e) :
    bypassRun copyKey l =
      Except.error (e, kf, { l with pending := kf :: p₂, done := l.done ++ p₁ })
    ∧ kf ∈ (kf :: p₂ : List String)
    ∧ kf ∉ l.done ++ p₁ := by
  have hrun : bypassRun copyKey l =
      Except.error (e, kf, { l with pending := kf :: p₂, done := l.done ++ p₁ }) := by
    rw [bypassRun, pending_keys, hsplit]
    exact bypassLoop_prefix_fail copyKey kf e hfail p₁ p₂ l hsplit hok
  have hkp : kf ∈ l.pending := by
    rw [hsplit]; exact List.mem_append_right _ (List.mem_cons_self _ _)
  have hknd : kf ∉ p₁ := by
    rw [hsplit] at hnd
    exact fun hmem =>
      (List.disjoint_of_nodup_append hnd) hmem (List.mem_cons_self _ _)
  refine ⟨hrun, List.mem_cons_self _ _, ?_⟩
  intro hmem
  rcases List.mem_append.1 hmem with hmem | hmem
  · exact hdisj kf hmem hkp
  · exact hknd hmem

/-- C4 witness: with pending `[a, b, c]` where `a`, `b` copy and `c` fails,
the run aborts at `c` with `done = [a, b]` and `c` still pending. -/
theorem bypass_crash_safety_witness :
    bypassRun
        (fun k => if k == "c" then Except.error CopyError.s3ResponseError else Except.ok ())
        ⟨["a", "b", "c"], [], [], 0⟩ =
      Except.error (CopyError.s3ResponseError, "c", ⟨["c"], ["a", "b"], [], 0⟩)
    ∧ "c" ∈ (["c"] : List String)
    ∧ "c" ∉ ([] : List String) ++ ["a", "b"] := by
  have h := bypass_crash_safety
    (fun k => if k == "c" then Except.error CopyError.s3ResponseError else Except.ok ())
    ⟨["a", "b", "c"], [], [], 0⟩ ["a", "b"] [] "c" CopyError.s3ResponseError
    rfl (by decide) (fun x hx => absurd hx (List.not_mem_nil x))
    (by intro x hx; simp only [List.mem_cons, List.not_mem_nil, or_false] at hx
        rcases hx with rfl | rfl <;> rfl)
    rfl
  exact h

/-- C6: when source and destination etags differ after a copy, the per-key
copy raises `InvalidKeyIntegrityCheck` (on the direct and the fallback path
alike), the retry wrapper performs exactly one attempt — the error is never
retried and propagates immediately — and the copy loop aborts with the key
still pending and not committed to done. -/
theorem integrity_mismatch_fatal (direct : Bool) (srcEtag destEtag : String)
    (hne : srcEtag ≠ destEtag) (fuel : Nat) (l : Ledger) (k : String)
    (hp : l.pending = [k]) (hd : k ∉ l.done) :
    _ensure_copy_key direct false srcEtag destEtag =
      Except.error CopyError.invalidKeyIntegrityCheck
    ∧ retry_long (fun _ => (_ensure_copy_key direct false srcEtag destEtag).map
        (fun _ => ())) fuel 0 =
        (Except.error CopyError.invalidKeyIntegrityCheck, 1)
    ∧ bypassRun (fun _ => (_ensure_copy_key direct false srcEtag destEtag).map
        (fun _ => ())) l =
        Except.error (CopyError.invalidKeyIntegrityCheck, k, l)
    ∧ k ∈ l.pending
    ∧ k ∉ l.done := by
  have hens : _ensure_copy_key direct false srcEtag destEtag =
      Except.error CopyError.invalidKeyIntegrityCheck := by
    simp [_ensure_copy_key, _check_copy_integrity, hne, Except.map]
  have hmap : (_ensure_copy_key direct false srcEtag destEtag).map
      (fun _ : Bool => ()) = Except.error CopyError.invalidKeyIntegrityCheck := by
    rw [hens]; rfl
  refine ⟨hens, ?_, ?_, ?_, hd⟩
  · cases fuel with
    | zero => simp [retry_long, hmap]
    | succ n => simp [retry_long, hmap, retryable]
  · rw [bypassRun, pending_keys, hp]
    simp [bypassLoop, hmap]
  · rw [hp]
    exact List.mem_cons_self _ _

/-- C6 witness: etags `"abc"` vs `"def"` with five retry attempts allowed
and the single pending key `k1`. -/
theorem integrity_mismatch_fatal_witness :
    _ensure_copy_key false false "abc" "def" =
      Except.error CopyError.invalidKeyIntegrityCheck
    ∧ retry_long (fun _ => (_ensure_copy_key false false "abc" "def").map
        (fun _ => ())) 5 0 =
        (Except.error CopyError.invalidKeyIntegrityCheck, 1)
    ∧ bypassRun (fun _ => (_ensure_copy_key false false "abc" "def").map
        (fun _ => ())) ⟨["k1"], [], [], 0⟩ =
        Except.error (CopyError.invalidKeyIntegrityCheck, "k1", ⟨["k1"], [], [], 0⟩)
    ∧ "k1" ∈ Ledger.pending ⟨["k1"], [], [], 0⟩
    ∧ "k1" ∉ Ledger.done ⟨["k1"], [], [], 0⟩ :=
  integrity_mismatch_fatal false "abc" "def" (by decide) 5 ⟨["k1"], [], [], 0⟩ "k1" rfl
    (fun h => absurd h (List.not_mem_nil _))

/-- C7: a key with present numeric `total` metadata adds that number to the
running `total_count` leaving `valid_total_count` as is; a key without
`total` leaves the count unchanged and sets the flag to false; the flag is
sticky — once false it stays false for the rest of the run.  In particular
totals `"5"`, `"10"` and then a key without `total` yield 15 with the flag
false. -/
theorem item_count_stats :
    runStats [some "5", some "10", none] 0 true = some (15, false)
    ∧ (∀ (s : String) (n t : Nat) (v : Bool), pyInt s = some n →
        copyKeyStats (some s) t v = some (t + n, v))
    ∧ (∀ (t : Nat) (v : Bool), copyKeyStats none t v = some (t, false))
    ∧ (∀ (ms : List (Option String)) (t : Nat) (r : Nat × Bool),
        runStats ms t false = some r → r.2 = false) := by
  refine ⟨by decide, ?_, ?_, ?_⟩
  · intro s n t v h
    have hs : s.data ≠ [] := by
      intro hnil
      rw [pyInt] at h
      simp [hnil] at h
    simp [copyKeyStats, pyStrTruthy, hs, h]
  · intro t v
    rfl
  · intro ms
    induction ms with
    | nil =>
        intro t r h
        simp only [runStats, Option.some.injEq] at h
        rw [← h]
    | cons m ms ih =>
        intro t r h
        simp only [runStats, Option.bind_eq_some] at h
        obtain ⟨p, hp, hrest⟩ := h
        have hp2 : p.2 = false := by
          rw [copyKeyStats] at hp
          split_ifs at hp with htr
          · cases hpi : pyInt (m.getD "") with
            | none => rw [hpi] at hp; cases hp
            | some n =>
                rw [hpi] at hp
                simp only [Option.some.injEq] at hp
                rw [← hp]
          · simp only [Option.some.injEq] at hp
            rw [← hp]
        rw [hp2] at hrest
        exact ih p.1 r hrest

/-- C7 witness: one key with `total = "7"` adds 7; one key without `total`
leaves 15 unchanged and clears the flag; the empty continuation keeps the
flag false. -/
theorem item_count_stats_witness :
    copyKeyStats (some "7") 1 true = some (8, true)
    ∧ copyKeyStats none 15 true = some (15, false)
    ∧ ((20 : Nat), false).2 = false :=
  ⟨item_count_stats.2.1 "7" 7 1 true (by decide),
   item_count_stats.2.2.1 15 true,
   item_count_stats.2.2.2 [] 20 (20, false) rfl⟩

/-- C5: per direct-copy attempt, when the destination principal has no
grant on the source key, a grant is present inside the scope and the
`finally` removes it on the success and on the exception exit alike; when a
grant is already held, nothing is added or removed.  On every exit path the
source key's ACL equals what it was before the attempt. -/
theorem scoped_grant_acquisition (u : String) (acl : Acl) (bodyRaises : Bool) :
    (key_permissions u acl bodyRaises =
      if bodyRaises then Except.error acl else Except.ok acl)
    ∧ (_key_has_permissions u acl = true → key_permissions_during u acl = acl)
    ∧ (_key_has_permissions u acl = false →
        _key_has_permissions u (key_permissions_during u acl) = true) := by
  refine ⟨?_, ?_, ?_⟩
  · by_cases hhas : _key_has_permissions u acl = true
    · simp [key_permissions, hhas]
    · have hhas' : _key_has_permissions u acl = false := by
        cases h : _key_has_permissions u acl
        · rfl
        · exact absurd h hhas
      have hclean : _clean_permissions u (_add_permissions u acl) = acl := by
        obtain ⟨gs⟩ := acl
        rw [_key_has_permissions] at hhas'
        simp only [List.any_eq_false] at hhas'
        rw [_clean_permissions, _add_permissions]
        have h1 : gs.filter (fun g => !(g.id == u)) = gs := by
          apply List.filter_eq_self.mpr
          intro g hg
          simpa using hhas' g hg
        simp [List.filter_append, h1]
      simp [key_permissions, hhas', hclean]
  · intro h
    simp [key_permissions_during, h]
  · intro h
    simp only [key_permissions_during, h, Bool.false_eq_true, if_false]
    obtain ⟨gs⟩ := acl
    simp [_key_has_permissions, _add_permissions]

/-- C5 witness: principal `U` without a grant on a key whose ACL holds a
single grant for owner `O`: the grant is visible inside the scope and the
ACL after the scope equals the original, on both exits. -/
theorem scoped_grant_acquisition_witness :
    key_permissions "U" ⟨[⟨"O", "FULL_CONTROL"⟩]⟩ true =
      Except.error ⟨[⟨"O", "FULL_CONTROL"⟩]⟩
    ∧ key_permissions "U" ⟨[⟨"O", "FULL_CONTROL"⟩]⟩ false =
        Except.ok ⟨[⟨"O", "FULL_CONTROL"⟩]⟩
    ∧ _key_has_permissions "U" (key_permissions_during "U" ⟨[⟨"O", "FULL_CONTROL"⟩]⟩) =
        true := by
  refine ⟨?_, ?_,
    (scoped_grant_acquisition "U" ⟨[⟨"O", "FULL_CONTROL"⟩]⟩ true).2.2 (by decide)⟩
  · have h := (scoped_grant_acquisition "U" ⟨[⟨"O", "FULL_CONTROL"⟩]⟩ true).1
    simpa using h
  · have h := (scoped_grant_acquisition "U" ⟨[⟨"O", "FULL_CONTROL"⟩]⟩ false).1
    simpa using h

/-- C8 counterexample: `pending_keys` returns the live pending list object
itself — the very address the ledger mutates — not an immutable copy: the
value read through the returned reference changes when a key is committed. -/
theorem pending_snapshot_counterexample :
    pending_keysRef ⟨0, []⟩ = (0 : Nat)
    ∧ Heap.read ⟨[["a", "b"]]⟩ (pending_keysRef ⟨0, []⟩) = ["a", "b"]
    ∧ Heap.read (commit_copied_keyRef ⟨[["a", "b"]]⟩ ⟨0, []⟩ "a").1
        (pending_keysRef ⟨0, []⟩) = ["b"]
    ∧ Heap.read (commit_copied_keyRef ⟨[["a", "b"]]⟩ ⟨0, []⟩ "a").1
        (pending_keysRef ⟨0, []⟩) ≠
        Heap.read ⟨[["a", "b"]]⟩ (pending_keysRef ⟨0, []⟩) :=
  ⟨rfl, rfl, by decide, by decide⟩

/-- C8 amended: `pending_keys` returns the live pending list (an alias, not
a copy); it is the orchestrator that deep-copies the returned list before
iterating (`deepcopy(self.bypass_state.pending_keys())`), and that snapshot
lives at a fresh address whose contents are unaffected by commits, so the
sequence being iterated is never mutated. -/
theorem pending_snapshot_amended (h : Heap) (st : LedgerRef) (k : String)
    (hvalid : st.pendingRef < h.cells.length) :
    pending_keysRef st = st.pendingRef
    ∧ (deepcopyList h (pending_keysRef st)).2 ≠ st.pendingRef
    ∧ (deepcopyList h (pending_keysRef st)).1.read (deepcopyList h (pending_keysRef st)).2 =
        h.read st.pendingRef
    ∧ (commit_copied_keyRef (deepcopyList h (pending_keysRef st)).1 st k).1.read
        (deepcopyList h (pending_keysRef st)).2 = h.read st.pendingRef := by
  refine ⟨rfl, Ne.symm (Nat.ne_of_lt hvalid), ?_, ?_⟩
  · simp [deepcopyList, Heap.alloc, Heap.read, pending_keysRef, List.getD]
  · simp only [commit_copied_keyRef, deepcopyList, Heap.alloc, Heap.write, Heap.read,
      pending_keysRef, List.getD]
    rw [List.getElem?_set_ne (Nat.ne_of_lt (by simpa using hvalid))]
    simp

/-- C8 amended witness: a one-cell heap holding `[a]` with a valid pending
reference. -/
theorem pending_snapshot_amended_witness :
    pending_keysRef ⟨0, []⟩ = (0 : Nat)
    ∧ (deepcopyList ⟨[["a"]]⟩ (pending_keysRef ⟨0, []⟩)).2 ≠ (0 : Nat)
    ∧ (deepcopyList ⟨[["a"]]⟩ (pending_keysRef ⟨0, []⟩)).1.read
        (deepcopyList ⟨[["a"]]⟩ (pending_keysRef ⟨0, []⟩)).2 =
        Heap.read ⟨[["a"]]⟩ 0
    ∧ (commit_copied_keyRef (deepcopyList ⟨[["a"]]⟩ (pending_keysRef ⟨0, []⟩)).1
        ⟨0, []⟩ "a").1.read (deepcopyList ⟨[["a"]]⟩ (pending_keysRef ⟨0, []⟩)).2 =
        Heap.read ⟨[["a"]]⟩ 0 :=
  pending_snapshot_amended ⟨[["a"]]⟩ ⟨0, []⟩ "a" (by decide)

/-- C9: `close` deletes the persisted checkpoint unconditionally — for every
ledger state, in particular one that still has uncommitted pending keys —
so a subsequent load finds no checkpoint and starts over from a fresh
enumeration: the resume state is destroyed. -/
theorem close_deletes_checkpoint (l : Ledger) (persisted : Option Checkpoint)
    (enumKeys : List String) :
    (close l persisted).2 = none
    ∧ (S3BypassState.init (close l persisted).2 enumKeys).1.pending = enumKeys
    ∧ (S3BypassState.init (close l persisted).2 enumKeys).1.done = [] :=
  ⟨rfl, rfl, rfl⟩

/-- C10: the destination key name is the destination filebase joined with
only the last `/`-separated component of the source key name; two source
keys sharing the final component map to the same destination name, and the
later copy overwrites the earlier one at that name. -/
theorem dest_key_name_collision (fb k₁ k₂ c₁ c₂ : String) (b : Bucket)
    (hlast : lastComponent k₁ = lastComponent k₂) :
    dest_key_name fb k₁ = dest_key_name fb k₂
    ∧ copyToDest (copyToDest b fb k₁ c₁) fb k₂ c₂ (dest_key_name fb k₁) = some c₂
    ∧ copyToDest b fb k₁ c₁ (dest_key_name fb k₁) = some c₁ := by
  have heq : dest_key_name fb k₁ = dest_key_name fb k₂ := by
    rw [dest_key_name, dest_key_name, hlast]
  refine ⟨heq, ?_, ?_⟩
  · rw [heq]
    simp [copyToDest, putKey]
  · simp [copyToDest, putKey]

/-- C10 witness: the distinct source keys `x/part0.gz` and `y/part0.gz`
share the final component, so the second copy overwrites the first. -/
theorem dest_key_name_collision_witness :
    ("x/part0.gz" : String) ≠ "y/part0.gz"
    ∧ dest_key_name "dst/2016" "x/part0.gz" = dest_key_name "dst/2016" "y/part0.gz"
    ∧ copyToDest (copyToDest (fun _ => none) "dst/2016" "x/part0.gz" "c1")
        "dst/2016" "y/part0.gz" "c2" (dest_key_name "dst/2016" "x/part0.gz") = some "c2" := by
  refine ⟨by decide, ?_, ?_⟩
  · exact (dest_key_name_collision "dst/2016" "x/part0.gz" "y/part0.gz" "c1" "c2"
      (fun _ => none) (by decide)).1
  · exact (dest_key_name_collision "dst/2016" "x/part0.gz" "y/part0.gz" "c1" "c2"
      (fun _ => none) (by decide)).2.1

end S3Bypass
